import Mathlib

/-!
Verification of the CrossFire manager-selection and orchestration engine.

This file gives a shallow embedding of the core decision logic of the
repository — availability-driven candidate ranking
(`src/managers/detection.py`), the sequential install/remove orchestration
(`src/managers/installer.py`), and the search aggregation pipeline
(`src/search/engine.py`) — and proves the specified properties about it.

External effects are modelled as explicit inputs:
* the availability map returned by `_detect_installed_managers` is an
  association list `List (String × Bool)` (Python dicts iterate in
  insertion order, which the ranker's final loop depends on);
* `shutil.which` is an oracle `String → Bool`;
* `run_command` together with command construction for one manager is an
  oracle `String → Except String RunResult` (an `Except.error e` models a
  Python exception with text `e` raised while building or running the
  manager's command);
* machine integers are `Int` (the only exit codes involved are small).
-/

namespace CrossFire

/-- Embeds `RunResult` from `src/core/execution.py`:
`ok : bool, code : int, out : str, err : str`. -/
structure RunResult where
  ok : Bool
  code : Int
  out : String
  err : String
deriving DecidableEq, Repr

/-- Python `s.lower()` (ASCII case mapping, as a list map over the
characters; Lean's own `String.toLower` is not kernel-reducible). -/
def strLower (s : String) : String := String.mk (s.toList.map Char.toLower)

/-- Python `s.startswith(pre)`. -/
def strStartsWith (s pre : String) : Bool :=
  decide (s.toList.take pre.toList.length = pre.toList)

/-- Python substring test `pat in s`. -/
def strContains (s pat : String) : Bool :=
  (List.range (s.toList.length + 1)).any fun i =>
    decide ((s.toList.drop i).take pat.toList.length = pat.toList)

/-- The version-specifier indicators from `_looks_like_python_pkg`. -/
def pythonIndicators : List String := ["==", ">=", "<=", "~=", "!=", "[", "]"]

/-- The well-known Python package prefixes from `_looks_like_python_pkg`. -/
def pythonCommon : List String :=
  ["py", "django", "flask", "numpy", "pandas", "requests", "boto3", "tensorflow", "torch"]

/-- The well-known npm package names from `_looks_like_npm_pkg`. -/
def npmCommon : List String :=
  ["express", "react", "vue", "angular", "typescript", "eslint", "webpack", "lodash", "axios"]

/-- Embeds `_looks_like_python_pkg` (`src/managers/detection.py`, lines 81-95). -/
def _looks_like_python_pkg (pkg : String) : Bool :=
  pythonIndicators.any (fun ind => strContains pkg ind)
  || pythonCommon.any (fun p => strStartsWith (strLower pkg) p)

/-- Embeds `_looks_like_npm_pkg` (`src/managers/detection.py`, lines 98-110). -/
def _looks_like_npm_pkg (pkg : String) : Bool :=
  strStartsWith pkg "@" || npmCommon.contains (strLower pkg)

/-- The ordered Linux native-manager preference table from
`_system_manager_priority`. -/
def linuxManagers : List (String × List String) :=
  [("apt", ["apt", "apt-get"]), ("dnf", ["dnf"]), ("yum", ["yum"]),
   ("pacman", ["pacman"]), ("zypper", ["zypper"]), ("apk", ["apk"])]

/-- Embeds `_system_manager_priority` (`src/managers/detection.py`, lines 52-78);
`whichF` models `shutil.which` returning a non-`None` path. -/
def _system_manager_priority (whichF : String → Bool) (osType : String) : List String :=
  if osType = "macos" then ["brew", "snap", "flatpak"]
  else if osType = "windows" then ["winget", "choco"]
  else if osType = "linux" then
    match linuxManagers.find? (fun pr => pr.2.any whichF) with
    | some pr => [pr.1, "snap", "flatpak"]
    | none => ["snap", "flatpak"]
  else ["snap", "flatpak"]

/-- Python `installed.get(m)` truthiness on the availability dict:
the value when the key is present, `False` when absent. -/
def lookupAvail (A : List (String × Bool)) (m : String) : Bool :=
  match A.find? (fun pr => pr.1 == m) with
  | some pr => pr.2
  | none => false

/-- Embeds `_ordered_install_manager_candidates`
(`src/managers/detection.py`, lines 113-133). -/
def _ordered_install_manager_candidates (pkg : String) (A : List (String × Bool))
    (whichF : String → Bool) (osType : String) : List String :=
  let prefs0 := if _looks_like_python_pkg pkg && lookupAvail A "pip" then ["pip"] else []
  let prefs1 := if _looks_like_npm_pkg pkg && lookupAvail A "npm" then prefs0 ++ ["npm"] else prefs0
  let prefs2 := (_system_manager_priority whichF osType).foldl
    (fun acc m => if lookupAvail A m && !(acc.contains m) then acc ++ [m] else acc) prefs1
  A.foldl (fun acc pr => if pr.2 && !(acc.contains pr.1) then acc ++ [pr.1] else acc) prefs2

/-- The keys of `INSTALL_HANDLERS` (`src/managers/commands.py`, lines 84-90). -/
def installHandlerKeys : List String :=
  ["pip", "npm", "apt", "dnf", "yum", "pacman", "zypper", "apk", "brew",
   "choco", "winget", "snap", "flatpak"]

/-- The keys of `REMOVE_HANDLERS` (`src/managers/commands.py`, lines 92-96). -/
def removeHandlerKeys : List String :=
  ["pip", "npm", "brew", "apt", "dnf", "yum", "pacman", "snap", "flatpak"]

/-- The attempt record produced for one manager inside the orchestration
try/except: the `RunResult` of `run_command` on success of the Python code
path, or the synthetic `RunResult(False, -1, "", str(e))` when building or
executing the command raised exception text `e`
(`src/managers/installer.py`, lines 113-144 and 182-209). -/
def attemptOutcome (runner : String → Except String RunResult) (m : String) : RunResult :=
  match runner m with
  | Except.ok r => r
  | Except.error e => ⟨false, -1, "", e⟩

/-- The candidate loop of `install_package`
(`src/managers/installer.py`, lines 108-147): managers without an
`INSTALL_HANDLERS` entry are skipped, every tried manager appends exactly one
attempt record, and the loop returns `(True, attempts)` at the first record
with `ok`. -/
def install_attempts (runner : String → Except String RunResult) :
    List String → List (String × RunResult) → Bool × List (String × RunResult)
  | [], acc => (false, acc)
  | m :: rest, acc =>
    if installHandlerKeys.contains m then
      let res := attemptOutcome runner m
      if res.ok then (true, acc ++ [(m, res)])
      else install_attempts runner rest (acc ++ [(m, res)])
    else install_attempts runner rest acc

/-- The candidate loop of `remove_package`
(`src/managers/installer.py`, lines 177-212). -/
def remove_attempts (runner : String → Except String RunResult) :
    List String → List (String × RunResult) → Bool × List (String × RunResult)
  | [], acc => (false, acc)
  | m :: rest, acc =>
    if removeHandlerKeys.contains m then
      let res := attemptOutcome runner m
      if res.ok then (true, acc ++ [(m, res)])
      else remove_attempts runner rest (acc ++ [(m, res)])
    else remove_attempts runner rest acc

/-- Python `any(installed.values())`. -/
def anyAvailable (A : List (String × Bool)) : Bool := A.any (fun pr => pr.2)

/-- The candidate list used by `install_package` after the
`preferred_manager` adjustment (`src/managers/installer.py`, lines 89-98). -/
def install_candidates (pkg : String) (preferred : Option String)
    (A : List (String × Bool)) (whichF : String → Bool) (osType : String) : List String :=
  let cands := _ordered_install_manager_candidates pkg A whichF osType
  match preferred with
  | none => cands
  | some p =>
    let pm := strLower p
    if installHandlerKeys.contains pm && lookupAvail A pm then
      pm :: cands.filter (fun m => !(m == pm))
    else cands

/-- Embeds `install_package` (`src/managers/installer.py`, lines 79-147). -/
def install_package (pkg : String) (preferred : Option String) (A : List (String × Bool))
    (whichF : String → Bool) (osType : String) (runner : String → Except String RunResult) :
    Bool × List (String × RunResult) :=
  if !(anyAvailable A) then (false, [])
  else
    let cands := install_candidates pkg preferred A whichF osType
    if cands.isEmpty then (false, [])
    else install_attempts runner cands []

/-- The candidate list of `remove_package`
(`src/managers/installer.py`, lines 161-171); `none` models the early
`return (False, [])` of the unavailable-explicit-manager branch. -/
def remove_candidates (pkg : String) (mgr : Option String) (A : List (String × Bool))
    (whichF : String → Bool) (osType : String) : Option (List String) :=
  match mgr with
  | some mg =>
    if removeHandlerKeys.contains (strLower mg) && lookupAvail A (strLower mg) then
      some [strLower mg]
    else none
  | none =>
    some ((_ordered_install_manager_candidates pkg A whichF osType).filter
      (fun m => removeHandlerKeys.contains m))

/-- Embeds `remove_package` (`src/managers/installer.py`, lines 150-212). -/
def remove_package (pkg : String) (mgr : Option String) (A : List (String × Bool))
    (whichF : String → Bool) (osType : String) (runner : String → Except String RunResult) :
    Bool × List (String × RunResult) :=
  if !(anyAvailable A) then (false, [])
  else
    match remove_candidates pkg mgr A whichF osType with
    | none => (false, [])
    | some cands =>
      if cands.isEmpty then (false, [])
      else remove_attempts runner cands []

/-- A concrete `shutil.which` oracle: only `apt` resolves. -/
def wWhichApt : String → Bool := fun s => s == "apt"

/-- Unfolds the let chain of the ranker into its three stages. -/
lemma ordered_eq (pkg : String) (A : List (String × Bool)) (whichF : String → Bool)
    (osType : String) :
    _ordered_install_manager_candidates pkg A whichF osType =
      A.foldl (fun acc pr => if pr.2 && !(acc.contains pr.1) then acc ++ [pr.1] else acc)
        ((_system_manager_priority whichF osType).foldl
          (fun acc m => if lookupAvail A m && !(acc.contains m) then acc ++ [m] else acc)
          (if _looks_like_npm_pkg pkg && lookupAvail A "npm" then
            (if _looks_like_python_pkg pkg && lookupAvail A "pip" then ["pip"] else []) ++ ["npm"]
          else
            (if _looks_like_python_pkg pkg && lookupAvail A "pip" then ["pip"] else []))) := rfl

/-- On a dict (distinct keys), looking up the key of an entry returns its value. -/
lemma lookupAvail_eq_of_mem {A : List (String × Bool)} (hA : (A.map Prod.fst).Nodup)
    {pr : String × Bool} (hpr : pr ∈ A) : lookupAvail A pr.1 = pr.2 := by
  induction A with
  | nil => cases hpr
  | cons hd tl ih =>
    simp only [List.map_cons, List.nodup_cons] at hA
    rcases List.mem_cons.mp hpr with h | h
    · subst h
      simp [lookupAvail]
    · have hne : (hd.1 == pr.1) = false := by
        have hmem : pr.1 ∈ tl.map Prod.fst := List.mem_map_of_mem Prod.fst h
        simp only [beq_eq_false_iff_ne, ne_eq]
        intro he
        rw [he] at hA
        exact hA.1 hmem
      simpa [lookupAvail, List.find?, hne] using ih hA.2 h

/-- A successful lookup means some entry is true, so `any(installed.values())`. -/
lemma anyAvailable_of_lookup {A : List (String × Bool)} {m : String}
    (h : lookupAvail A m = true) : anyAvailable A = true := by
  unfold lookupAvail at h
  cases hf : A.find? (fun pr => pr.1 == m) with
  | none => rw [hf] at h; cases h
  | some pr =>
    rw [hf] at h
    exact List.any_eq_true.mpr ⟨pr, List.mem_of_find?_eq_some hf, h⟩

lemma lookupAvail_false_of_all_false {A : List (String × Bool)}
    (h : ∀ pr ∈ A, pr.2 = false) (m : String) : lookupAvail A m = false := by
  unfold lookupAvail
  cases hf : A.find? (fun pr => pr.1 == m) with
  | none => rfl
  | some pr => exact h pr (List.mem_of_find?_eq_some hf)

lemma anyAvailable_false_of_all_false {A : List (String × Bool)}
    (h : ∀ pr ∈ A, pr.2 = false) : anyAvailable A = false := by
  unfold anyAvailable
  simp only [List.any_eq_false]
  intro pr hpr
  simp [h pr hpr]

lemma foldl_rank_strings_all_false {A : List (String × Bool)}
    (h : ∀ m, lookupAvail A m = false) (l : List String) (acc : List String) :
    l.foldl (fun acc2 m => if lookupAvail A m && !(acc2.contains m) then acc2 ++ [m] else acc2)
      acc = acc := by
  induction l generalizing acc with
  | nil => rfl
  | cons hd tl ih =>
    rw [List.foldl_cons]
    have h1 : (if lookupAvail A hd && !(acc.contains hd) then acc ++ [hd] else acc) = acc := by
      simp [h hd]
    rw [h1]
    exact ih acc

lemma foldl_rank_pairs_all_false {l : List (String × Bool)}
    (h : ∀ pr ∈ l, pr.2 = false) (acc : List String) :
    l.foldl (fun acc2 pr => if pr.2 && !(acc2.contains pr.1) then acc2 ++ [pr.1] else acc2)
      acc = acc := by
  induction l generalizing acc with
  | nil => rfl
  | cons hd tl ih =>
    rw [List.foldl_cons]
    have h0 : hd.2 = false := h hd (List.mem_cons_self hd tl)
    have h1 : (if hd.2 && !(acc.contains hd.1) then acc ++ [hd.1] else acc) = acc := by
      simp [h0]
    rw [h1]
    exact ih (fun pr hpr => h pr (List.mem_cons_of_mem hd hpr)) acc

/-- C5: with no available manager the ranker yields `[]` and both orchestration
entry points fail immediately with zero attempts, for every runner. -/
theorem no_available_managers_noop (pkg : String) (preferred mgr : Option String)
    (A : List (String × Bool)) (whichF : String → Bool) (osType : String)
    (runner : String → Except String RunResult)
    (hA : ∀ pr ∈ A, pr.2 = false) :
    _ordered_install_manager_candidates pkg A whichF osType = []
    ∧ install_package pkg preferred A whichF osType runner = (false, [])
    ∧ remove_package pkg mgr A whichF osType runner = (false, []) := by
  have hlook := lookupAvail_false_of_all_false hA
  have hany := anyAvailable_false_of_all_false hA
  refine ⟨?_, ?_, ?_⟩
  · rw [ordered_eq, foldl_rank_pairs_all_false hA, foldl_rank_strings_all_false hlook]
    simp [hlook "pip", hlook "npm"]
  · unfold install_package
    simp [hany]
  · unfold remove_package
    simp [hany]

/-- C5 witness: the all-false availability map `{pip: false}`. -/
theorem no_available_managers_noop_witness :
    (∀ pr ∈ ([("pip", false)] : List (String × Bool)), pr.2 = false)
    ∧ (_ordered_install_manager_candidates "requests" [("pip", false)] wWhichApt "linux" = []
      ∧ install_package "requests" none [("pip", false)] wWhichApt "linux"
          (fun _ => Except.ok ⟨true, 0, "", ""⟩) = (false, [])
      ∧ remove_package "requests" none [("pip", false)] wWhichApt "linux"
          (fun _ => Except.ok ⟨true, 0, "", ""⟩) = (false, [])) :=
  ⟨by decide, no_available_managers_noop "requests" none none [("pip", false)] wWhichApt "linux"
    (fun _ => Except.ok ⟨true, 0, "", ""⟩) (by decide)⟩

/-- C8: `"django==4.2"` matches the Python heuristic through its
version-specifier token, so with pip and apt available on Linux the ranker
places pip before the OS-priority manager apt. -/
theorem django_pip_before_apt :
    _looks_like_python_pkg "django==4.2" = true
    ∧ _ordered_install_manager_candidates "django==4.2"
        [("pip", true), ("apt", true), ("npm", false)] wWhichApt "linux" = ["pip", "apt"] := by
  constructor
  · rfl
  · decide

lemma foldl_rank_strings_inv (A : List (String × Bool)) (l : List String) (acc : List String)
    (h1 : acc.Nodup) (h2 : ∀ m ∈ acc, lookupAvail A m = true) :
    (l.foldl (fun acc2 m => if lookupAvail A m && !(acc2.contains m) then acc2 ++ [m] else acc2)
        acc).Nodup
    ∧ ∀ m ∈ l.foldl (fun acc2 m => if lookupAvail A m && !(acc2.contains m) then acc2 ++ [m]
        else acc2) acc, lookupAvail A m = true := by
  induction l generalizing acc with
  | nil => exact ⟨h1, h2⟩
  | cons hd tl ih =>
    simp only [List.foldl_cons]
    by_cases hc : (lookupAvail A hd && !(acc.contains hd)) = true
    · rw [if_pos hc]
      obtain ⟨hl, hnc⟩ := Bool.and_eq_true_iff.mp hc
      have hnotmem : hd ∉ acc := by
        intro hmem
        have hct : acc.contains hd = true := List.elem_eq_true_of_mem hmem
        rw [hct] at hnc
        cases hnc
      apply ih
      · simp [List.nodup_append, h1, hnotmem]
      · intro m hm
        rcases List.mem_append.mp hm with h | h
        · exact h2 m h
        · rw [List.mem_singleton.mp h]
          exact hl
    · rw [if_neg hc]
      exact ih acc h1 h2

lemma foldl_rank_pairs_inv (A : List (String × Bool)) (hA : (A.map Prod.fst).Nodup)
    (l : List (String × Bool)) (hl : ∀ pr ∈ l, pr ∈ A) (acc : List String)
    (h1 : acc.Nodup) (h2 : ∀ m ∈ acc, lookupAvail A m = true) :
    (l.foldl (fun acc2 pr => if pr.2 && !(acc2.contains pr.1) then acc2 ++ [pr.1] else acc2)
        acc).Nodup
    ∧ ∀ m ∈ l.foldl (fun acc2 pr => if pr.2 && !(acc2.contains pr.1) then acc2 ++ [pr.1]
        else acc2) acc, lookupAvail A m = true := by
  induction l generalizing acc with
  | nil => exact ⟨h1, h2⟩
  | cons hd tl ih =>
    simp only [List.foldl_cons]
    by_cases hc : (hd.2 && !(acc.contains hd.1)) = true
    · rw [if_pos hc]
      obtain ⟨hv, hnc⟩ := Bool.and_eq_true_iff.mp hc
      have hnotmem : hd.1 ∉ acc := by
        intro hmem
        have hct : acc.contains hd.1 = true := List.elem_eq_true_of_mem hmem
        rw [hct] at hnc
        cases hnc
      have hlook : lookupAvail A hd.1 = true := by
        rw [lookupAvail_eq_of_mem hA (hl hd (List.mem_cons_self hd tl))]
        exact hv
      apply ih (fun pr hpr => hl pr (List.mem_cons_of_mem hd hpr))
      · simp [List.nodup_append, h1, hnotmem]
      · intro m hm
        rcases List.mem_append.mp hm with h | h
        · exact h2 m h
        · rw [List.mem_singleton.mp h]
          exact hlook
    · rw [if_neg hc]
      exact ih (fun pr hpr => hl pr (List.mem_cons_of_mem hd hpr)) acc h1 h2

lemma heuristic_prefs_inv (pkg : String) (A : List (String × Bool)) :
    (if _looks_like_npm_pkg pkg && lookupAvail A "npm" then
        (if _looks_like_python_pkg pkg && lookupAvail A "pip" then ["pip"] else []) ++ ["npm"]
      else
        (if _looks_like_python_pkg pkg && lookupAvail A "pip" then ["pip"] else [])).Nodup
    ∧ ∀ m ∈ (if _looks_like_npm_pkg pkg && lookupAvail A "npm" then
        (if _looks_like_python_pkg pkg && lookupAvail A "pip" then ["pip"] else []) ++ ["npm"]
      else
        (if _looks_like_python_pkg pkg && lookupAvail A "pip" then ["pip"] else [])),
      lookupAvail A m = true := by
  by_cases hnp : (_looks_like_npm_pkg pkg && lookupAvail A "npm") = true
  · by_cases hpy : (_looks_like_python_pkg pkg && lookupAvail A "pip") = true
    · rw [if_pos hnp, if_pos hpy]
      refine ⟨by decide, ?_⟩
      intro m hm
      rcases List.mem_append.mp hm with h | h
      · rw [List.mem_singleton.mp h]
        exact (Bool.and_eq_true_iff.mp hpy).2
      · rw [List.mem_singleton.mp h]
        exact (Bool.and_eq_true_iff.mp hnp).2
    · rw [if_pos hnp, if_neg hpy]
      refine ⟨by decide, ?_⟩
      intro m hm
      rcases List.mem_append.mp hm with h | h
      · cases h
      · rw [List.mem_singleton.mp h]
        exact (Bool.and_eq_true_iff.mp hnp).2
  · by_cases hpy : (_looks_like_python_pkg pkg && lookupAvail A "pip") = true
    · rw [if_neg hnp, if_pos hpy]
      refine ⟨by decide, ?_⟩
      intro m hm
      rw [List.mem_singleton.mp hm]
      exact (Bool.and_eq_true_iff.mp hpy).2
    · rw [if_neg hnp, if_neg hpy]
      exact ⟨List.nodup_nil, fun m hm => absurd hm (List.not_mem_nil m)⟩

/-- C2: for a dict-shaped availability map, the ranker's candidate list has
no duplicate manager and only managers whose availability entry is true. -/
theorem rank_nodup_and_available (pkg : String) (A : List (String × Bool))
    (whichF : String → Bool) (osType : String)
    (hA : (A.map Prod.fst).Nodup) :
    (_ordered_install_manager_candidates pkg A whichF osType).Nodup
    ∧ ∀ m ∈ _ordered_install_manager_candidates pkg A whichF osType,
        lookupAvail A m = true := by
  rw [ordered_eq]
  obtain ⟨hn1, hm1⟩ := heuristic_prefs_inv pkg A
  obtain ⟨hn2, hm2⟩ := foldl_rank_strings_inv A (_system_manager_priority whichF osType) _ hn1 hm1
  exact foldl_rank_pairs_inv A hA A (fun pr h => h) _ hn2 hm2

/-- C2 witness: a concrete two-manager availability map. -/
theorem rank_nodup_and_available_witness :
    (([("pip", true), ("apt", false)] : List (String × Bool)).map Prod.fst).Nodup
    ∧ ((_ordered_install_manager_candidates "flask" [("pip", true), ("apt", false)] wWhichApt
        "linux").Nodup
      ∧ ∀ m ∈ _ordered_install_manager_candidates "flask" [("pip", true), ("apt", false)]
          wWhichApt "linux", lookupAvail [("pip", true), ("apt", false)] m = true) :=
  ⟨by decide, rank_nodup_and_available "flask" [("pip", true), ("apt", false)] wWhichApt "linux"
    (by decide)⟩

lemma get_mem_take_succ (l : List String) (k : Nat) (hk : k < l.length) :
    l.get ⟨k, hk⟩ ∈ l.take (k + 1) := by
  induction l generalizing k with
  | nil => cases hk
  | cons hd tl ih =>
    cases k with
    | zero => simp
    | succ k2 =>
      rw [List.take_succ_cons]
      exact List.mem_cons_of_mem hd (ih k2 (Nat.lt_of_succ_lt_succ hk))

lemma mem_take_of_le {l : List String} {m : String} {j k : Nat} (hjk : j ≤ k)
    (h : m ∈ l.take j) : m ∈ l.take k := by
  have h2 : (l.take k).take j = l.take j := by rw [List.take_take, Nat.min_eq_left hjk]
  rw [← h2] at h
  exact List.take_subset j (l.take k) h

/-- First-success characterization of the install loop: with all candidates
install-capable, the first `k` failing and candidate `k` succeeding, the loop
returns true and appends exactly one record per tried candidate, in order. -/
lemma install_attempts_first_success (runner : String → Except String RunResult)
    (cands : List String) (k : Nat) (hk : k < cands.length)
    (acc : List (String × RunResult))
    (hall : ∀ m ∈ cands, installHandlerKeys.contains m = true)
    (hfail : ∀ m ∈ cands.take k, (attemptOutcome runner m).ok = false)
    (hsucc : (attemptOutcome runner (cands.get ⟨k, hk⟩)).ok = true) :
    install_attempts runner cands acc =
      (true, acc ++ (cands.take (k + 1)).map (fun m => (m, attemptOutcome runner m))) := by
  induction cands generalizing k acc with
  | nil => exact absurd hk (Nat.not_lt_zero k)
  | cons hd tl ih =>
    have hhd := hall hd (List.mem_cons_self hd tl)
    have hhdm : hd ∈ installHandlerKeys := by simpa using hhd
    cases k with
    | zero =>
      have hs : (attemptOutcome runner hd).ok = true := hsucc
      simp [install_attempts, hhdm, hs]
    | succ k2 =>
      have hf : (attemptOutcome runner hd).ok = false := by
        apply hfail hd
        rw [List.take_succ_cons]
        exact List.mem_cons_self hd (tl.take k2)
      have hk2 : k2 < tl.length := Nat.lt_of_succ_lt_succ hk
      have hrec := ih k2 hk2 (acc ++ [(hd, attemptOutcome runner hd)])
        (fun m hm => hall m (List.mem_cons_of_mem hd hm))
        (fun m hm => hfail m (by rw [List.take_succ_cons]; exact List.mem_cons_of_mem hd hm))
        hsucc
      have hstep : install_attempts runner (hd :: tl) acc
          = install_attempts runner tl (acc ++ [(hd, attemptOutcome runner hd)]) := by
        simp [install_attempts, hhdm, hf]
      rw [hstep, hrec, List.take_succ_cons, List.map_cons]
      simp

/-- C1: the install loop tries candidates in order, stops at the first
successful attempt with `(true, attempts)` where the attempts are exactly one
record per candidate of the prefix up to and including the first success, and
the result does not depend on the runner beyond that prefix (later candidates
are never run). -/
theorem install_stops_at_first_success (runner : String → Except String RunResult)
    (cands : List String) (k : Nat) (hk : k < cands.length)
    (hall : ∀ m ∈ cands, installHandlerKeys.contains m = true)
    (hfail : ∀ m ∈ cands.take k, (attemptOutcome runner m).ok = false)
    (hsucc : (attemptOutcome runner (cands.get ⟨k, hk⟩)).ok = true) :
    install_attempts runner cands [] =
      (true, (cands.take (k + 1)).map (fun m => (m, attemptOutcome runner m)))
    ∧ ∀ runner2 : String → Except String RunResult,
        (∀ m ∈ cands.take (k + 1), runner2 m = runner m) →
        install_attempts runner2 cands [] = install_attempts runner cands [] := by
  have h1 := install_attempts_first_success runner cands k hk [] hall hfail hsucc
  rw [List.nil_append] at h1
  refine ⟨h1, ?_⟩
  intro runner2 hagree
  have hout : ∀ m ∈ cands.take (k + 1), attemptOutcome runner2 m = attemptOutcome runner m := by
    intro m hm
    unfold attemptOutcome
    rw [hagree m hm]
  have hfail2 : ∀ m ∈ cands.take k, (attemptOutcome runner2 m).ok = false := by
    intro m hm
    rw [hout m (mem_take_of_le (Nat.le_succ k) hm)]
    exact hfail m hm
  have hsucc2 : (attemptOutcome runner2 (cands.get ⟨k, hk⟩)).ok = true := by
    rw [hout _ (get_mem_take_succ cands k hk)]
    exact hsucc
  have h2 := install_attempts_first_success runner2 cands k hk [] hall hfail2 hsucc2
  rw [List.nil_append] at h2
  rw [h1, h2]
  have hmap : (cands.take (k + 1)).map (fun m => (m, attemptOutcome runner2 m))
      = (cands.take (k + 1)).map (fun m => (m, attemptOutcome runner m)) :=
    List.map_congr_left (fun m hm => by rw [hout m hm])
  rw [hmap]

/-- A runner that fails for every manager except `brew`. -/
def wRunner1 : String → Except String RunResult := fun m =>
  if m = "brew" then Except.ok ⟨true, 0, "done", ""⟩ else Except.ok ⟨false, 1, "", "failed"⟩

/-- C1 witness: candidates `[apt, brew, pip]`, apt fails, brew succeeds:
two attempts, pip untouched. -/
theorem install_stops_at_first_success_witness :
    (∀ m ∈ (["apt", "brew", "pip"] : List String), installHandlerKeys.contains m = true)
    ∧ install_attempts wRunner1 ["apt", "brew", "pip"] [] =
        (true, ((["apt", "brew", "pip"] : List String).take 2).map
          (fun m => (m, attemptOutcome wRunner1 m))) :=
  ⟨by decide, (install_stops_at_first_success wRunner1 ["apt", "brew", "pip"] 1 (by decide)
    (by decide) (by decide) (by decide)).1⟩

/-- C9: an exception raised while building or executing one manager's command
is caught, recorded as the synthetic failed record `(False, -1, "", str(e))`
appended to the attempts, and each loop proceeds to the next candidate:
the install loop for every install-capable candidate, the remove loop for
every remove-capable candidate. -/
theorem exception_to_synthetic_attempt (runner : String → Except String RunResult)
    (m e : String) (rest : List String) (acc : List (String × RunResult))
    (herr : runner m = Except.error e) :
    attemptOutcome runner m = ⟨false, -1, "", e⟩
    ∧ (installHandlerKeys.contains m = true →
        install_attempts runner (m :: rest) acc
          = install_attempts runner rest (acc ++ [(m, ⟨false, -1, "", e⟩)]))
    ∧ (removeHandlerKeys.contains m = true →
        remove_attempts runner (m :: rest) acc
          = remove_attempts runner rest (acc ++ [(m, ⟨false, -1, "", e⟩)])) := by
  have h1 : attemptOutcome runner m = ⟨false, -1, "", e⟩ := by
    unfold attemptOutcome
    rw [herr]
  refine ⟨h1, ?_, ?_⟩
  · intro hmi
    have hmim : m ∈ installHandlerKeys := by simpa using hmi
    simp [install_attempts, hmim, h1]
  · intro hmr
    have hmrm : m ∈ removeHandlerKeys := by simpa using hmr
    simp [remove_attempts, hmrm, h1]

/-- A runner whose every attempt raises. -/
def wRunnerBoom : String → Except String RunResult := fun _ => Except.error "boom"

/-- C9 witness: a zypper attempt raising "boom" inside the install loop
(zypper is install-capable but has no remove handler), and a pip attempt
raising "boom" inside the remove loop. -/
theorem exception_to_synthetic_attempt_witness :
    wRunnerBoom "zypper" = Except.error "boom"
    ∧ attemptOutcome wRunnerBoom "zypper" = ⟨false, -1, "", "boom"⟩
    ∧ install_attempts wRunnerBoom ["zypper", "apt"] []
        = install_attempts wRunnerBoom ["apt"] [("zypper", ⟨false, -1, "", "boom"⟩)]
    ∧ remove_attempts wRunnerBoom ["pip", "apt"] []
        = remove_attempts wRunnerBoom ["apt"] [("pip", ⟨false, -1, "", "boom"⟩)] := by
  have hz := exception_to_synthetic_attempt wRunnerBoom "zypper" "boom" ["apt"] [] rfl
  have hp := exception_to_synthetic_attempt wRunnerBoom "pip" "boom" ["apt"] [] rfl
  refine ⟨rfl, hz.1, ?_, ?_⟩
  · simpa using hz.2.1 (by decide)
  · simpa using hp.2.2 (by decide)

/-- A `shutil.which` oracle resolving nothing. -/
def cWhichNone : String → Bool := fun _ => false

/-- A runner whose every attempt succeeds with exit code 0. -/
def cRunnerOk : String → Except String RunResult := fun _ => Except.ok ⟨true, 0, "", ""⟩

/-- C3 counterexample: zypper is available, is explicitly supplied, yet
`remove_package` produces zero attempt records (not one) because zypper has no
`REMOVE_HANDLERS` entry. -/
theorem remove_explicit_unsupported_counterexample :
    lookupAvail [("zypper", true)] "zypper" = true
    ∧ remove_package "foo" (some "zypper") [("zypper", true)] cWhichNone "linux" cRunnerOk
        = (false, [])
    ∧ (remove_package "foo" (some "zypper") [("zypper", true)] cWhichNone "linux"
        cRunnerOk).2.length ≠ 1 := by
  refine ⟨by decide, by decide, by decide⟩

/-- C3 amended: when the lowercased explicit manager is remove-capable AND
available it is the only candidate tried, yielding exactly one attempt record
for it; when it is not remove-capable or not available, `remove_package`
returns `(false, [])` immediately with zero attempts, for every runner. -/
theorem remove_explicit_manager_policy (pkg M : String) (A : List (String × Bool))
    (whichF : String → Bool) (osType : String) (runner : String → Except String RunResult) :
    (removeHandlerKeys.contains (strLower M) = true → lookupAvail A (strLower M) = true →
      remove_package pkg (some M) A whichF osType runner =
        ((attemptOutcome runner (strLower M)).ok,
          [(strLower M, attemptOutcome runner (strLower M))]))
    ∧ ((removeHandlerKeys.contains (strLower M) = true ∧ lookupAvail A (strLower M) = true →
        False) →
      remove_package pkg (some M) A whichF osType runner = (false, [])) := by
  constructor
  · intro hcap hav
    have hany := anyAvailable_of_lookup hav
    have hc : remove_candidates pkg (some M) A whichF osType = some [strLower M] := by
      show (if (removeHandlerKeys.contains (strLower M) && lookupAvail A (strLower M)) = true
          then some [strLower M] else none) = some [strLower M]
      rw [hcap, hav]
      simp
    unfold remove_package
    rw [hany, hc]
    show remove_attempts runner [strLower M] [] = _
    have hcapm : strLower M ∈ removeHandlerKeys := by simpa using hcap
    cases hok : (attemptOutcome runner (strLower M)).ok <;>
      simp [remove_attempts, hcapm, hok]
  · intro hno
    have hcc : (removeHandlerKeys.contains (strLower M) && lookupAvail A (strLower M))
        = false := by
      cases h1 : removeHandlerKeys.contains (strLower M)
      · simp
      · cases h2 : lookupAvail A (strLower M)
        · simp
        · exact absurd ⟨h1, h2⟩ hno
    have hc : remove_candidates pkg (some M) A whichF osType = none := by
      show (if (removeHandlerKeys.contains (strLower M) && lookupAvail A (strLower M)) = true
          then some [strLower M] else none) = none
      rw [hcc]
      simp
    unfold remove_package
    rw [hc]
    cases hanyc : anyAvailable A <;> simp

/-- C3 amended witness: explicit `"BREW"` with brew available produces exactly
one attempt even though apt is also available; explicit `"brew"` with brew
unavailable fails immediately with zero attempts. -/
theorem remove_explicit_manager_policy_witness :
    remove_package "wget" (some "BREW") [("brew", true), ("apt", true)] cWhichNone "linux"
        cRunnerOk = (true, [("brew", ⟨true, 0, "", ""⟩)])
    ∧ remove_package "wget" (some "brew") [("apt", true)] cWhichNone "linux" cRunnerOk
        = (false, []) := by
  constructor
  · have h := (remove_explicit_manager_policy "wget" "BREW" [("brew", true), ("apt", true)]
      cWhichNone "linux" cRunnerOk).1 (by decide) (by decide)
    rw [h]
    decide
  · exact (remove_explicit_manager_policy "wget" "brew" [("apt", true)] cWhichNone "linux"
      cRunnerOk).2 (by decide)

lemma install_attempts_snd_extends (runner : String → Except String RunResult)
    (cands : List String) (acc : List (String × RunResult)) :
    ∃ t, (install_attempts runner cands acc).2 = acc ++ t := by
  induction cands generalizing acc with
  | nil => exact ⟨[], (List.append_nil acc).symm⟩
  | cons hd tl ih =>
    by_cases hc : hd ∈ installHandlerKeys
    · cases hok : (attemptOutcome runner hd).ok
      · obtain ⟨t, ht⟩ := ih (acc ++ [(hd, attemptOutcome runner hd)])
        refine ⟨(hd, attemptOutcome runner hd) :: t, ?_⟩
        simp [install_attempts, hc, hok, ht]
      · refine ⟨[(hd, attemptOutcome runner hd)], ?_⟩
        simp [install_attempts, hc, hok]
    · obtain ⟨t, ht⟩ := ih acc
      exact ⟨t, by simp [install_attempts, hc, ht]⟩

lemma install_attempts_head (runner : String → Except String RunResult)
    (m : String) (rest : List String)
    (hm : installHandlerKeys.contains m = true) :
    (install_attempts runner (m :: rest) []).2.head? = some (m, attemptOutcome runner m) := by
  have hmm : m ∈ installHandlerKeys := by simpa using hm
  cases hok : (attemptOutcome runner m).ok
  · obtain ⟨t, ht⟩ := install_attempts_snd_extends runner rest [(m, attemptOutcome runner m)]
    have h2 : (install_attempts runner (m :: rest) []).2
        = (m, attemptOutcome runner m) :: t := by
      simp [install_attempts, hmm, hok, ht]
    rw [h2]
    rfl
  · have h2 : install_attempts runner (m :: rest) [] = (true, [(m, attemptOutcome runner m)]) := by
      simp [install_attempts, hmm, hok]
    rw [h2]
    rfl

/-- C6: a preferred manager that is install-capable and available becomes the
first candidate (hence the first attempt record), with the remaining ranked
candidates appended after it deduplicated; an invalid preferred manager leaves
the ranked list unmodified (orchestration continues, it does not fail). -/
theorem preferred_manager_fronting (pkg p : String) (A : List (String × Bool))
    (whichF : String → Bool) (osType : String) (runner : String → Except String RunResult)
    (hpm : installHandlerKeys.contains (strLower p) = true)
    (hav : lookupAvail A (strLower p) = true) :
    install_candidates pkg (some p) A whichF osType =
      strLower p :: (_ordered_install_manager_candidates pkg A whichF osType).filter
        (fun m => !(m == strLower p))
    ∧ ((install_package pkg (some p) A whichF osType runner).2.head?).map Prod.fst
        = some (strLower p)
    ∧ ∀ q : String,
        (installHandlerKeys.contains (strLower q) = true ∧ lookupAvail A (strLower q) = true →
          False) →
        install_candidates pkg (some q) A whichF osType
          = _ordered_install_manager_candidates pkg A whichF osType := by
  have hcand : install_candidates pkg (some p) A whichF osType
      = strLower p :: (_ordered_install_manager_candidates pkg A whichF osType).filter
          (fun m => !(m == strLower p)) := by
    show (if (installHandlerKeys.contains (strLower p) && lookupAvail A (strLower p)) = true
        then strLower p :: (_ordered_install_manager_candidates pkg A whichF osType).filter
          (fun m => !(m == strLower p))
        else _ordered_install_manager_candidates pkg A whichF osType) = _
    rw [hpm, hav]
    simp
  refine ⟨hcand, ?_, ?_⟩
  · have hany := anyAvailable_of_lookup hav
    have hpack : install_package pkg (some p) A whichF osType runner
        = install_attempts runner
            (strLower p :: (_ordered_install_manager_candidates pkg A whichF osType).filter
              (fun m => !(m == strLower p))) [] := by
      unfold install_package
      rw [hany, hcand]
      rfl
    rw [hpack, install_attempts_head runner (strLower p) _ hpm]
    rfl
  · intro q hq
    have hcc : (installHandlerKeys.contains (strLower q) && lookupAvail A (strLower q))
        = false := by
      cases h1 : installHandlerKeys.contains (strLower q)
      · simp
      · cases h2 : lookupAvail A (strLower q)
        · simp
        · exact absurd ⟨h1, h2⟩ hq
    show (if (installHandlerKeys.contains (strLower q) && lookupAvail A (strLower q)) = true
        then strLower q :: (_ordered_install_manager_candidates pkg A whichF osType).filter
          (fun m => !(m == strLower q))
        else _ordered_install_manager_candidates pkg A whichF osType) = _
    rw [hcc]
    simp

/-- C6 witness: preferred `"PIP"` (lowercased to pip) with pip available is
fronted ahead of apt and is the first attempt. -/
theorem preferred_manager_fronting_witness :
    installHandlerKeys.contains (strLower "PIP") = true
    ∧ lookupAvail [("apt", true), ("pip", true)] (strLower "PIP") = true
    ∧ install_candidates "wget" (some "PIP") [("apt", true), ("pip", true)] wWhichApt "linux"
        = strLower "PIP" :: (_ordered_install_manager_candidates "wget"
            [("apt", true), ("pip", true)] wWhichApt "linux").filter
            (fun m => !(m == strLower "PIP"))
    ∧ ((install_package "wget" (some "PIP") [("apt", true), ("pip", true)] wWhichApt "linux"
        cRunnerOk).2.head?).map Prod.fst = some (strLower "PIP") := by
  have h := preferred_manager_fronting "wget" "PIP" [("apt", true), ("pip", true)] wWhichApt
    "linux" cRunnerOk (by decide) (by decide)
  exact ⟨by decide, by decide, h.1, h.2.1⟩

/-- Embeds the `SearchResult` dataclass (`src/search/engine.py`, lines 29-39);
`relevance_score` (a Python float) is modelled as a rational. -/
structure SearchResult where
  name : String
  description : String
  version : String
  manager : String
  homepage : Option String
  relevance_score : Rat
deriving DecidableEq, Repr

/-- The comparison behind `all_results.sort(key=lambda x: x.relevance_score,
reverse=True)`: `a` may come before `b` when `b`'s score is at most `a`'s. -/
def scoreGE (a b : SearchResult) : Prop := b.relevance_score ≤ a.relevance_score

instance : DecidableRel scoreGE :=
  fun a b => inferInstanceAs (Decidable (b.relevance_score ≤ a.relevance_score))

instance : IsTotal SearchResult scoreGE :=
  ⟨fun a b => le_total b.relevance_score a.relevance_score⟩

instance : IsTrans SearchResult scoreGE := ⟨fun _ _ _ h1 h2 => le_trans h2 h1⟩

/-- Python `list.sort(..., reverse=True)` is a stable sort by descending key;
stable sorts by the same key agree extensionally, so it is modelled as the
stable insertion sort under `scoreGE`. -/
def pySortDesc (l : List SearchResult) : List SearchResult := List.insertionSort scoreGE l

instance {ε : Type u} {α : Type v} [DecidableEq ε] [DecidableEq α] :
    DecidableEq (Except ε α) := fun x y =>
  match x, y with
  | Except.ok a, Except.ok b =>
    if h : a = b then isTrue (by rw [h]) else isFalse (by intro he; cases he; exact h rfl)
  | Except.error a, Except.error b =>
    if h : a = b then isTrue (by rw [h]) else isFalse (by intro he; cases he; exact h rfl)
  | Except.ok _, Except.error _ => isFalse (by intro he; cases he)
  | Except.error _, Except.ok _ => isFalse (by intro he; cases he)

/-- One observed event of the `as_completed` loop in `RealSearchEngine.search`
(`src/search/engine.py`, lines 90-99): either a future completed
(`future.result()` returning a result list or raising with the given text),
or the 120-second overall timeout fired while iterating (`as_completed` then
raises `TimeoutError` at the `for` statement itself). -/
inductive TaskEvent where
  | completed (mgr : String) (outcome : Except String (List SearchResult))
  | timedOut
deriving DecidableEq

/-- The collection loop over `as_completed`: ok completions extend
`all_results`, per-task exceptions are caught inside the loop body and
contribute nothing, but the overall-timeout `TimeoutError` is raised by the
iterator outside the try/except and aborts the loop
(modelled as `Except.error ()`). -/
def collect_results : List TaskEvent → List SearchResult → Except Unit (List SearchResult)
  | [], acc => Except.ok acc
  | TaskEvent.completed _ (Except.ok rs) :: evs, acc => collect_results evs (acc ++ rs)
  | TaskEvent.completed _ (Except.error _) :: evs, acc => collect_results evs acc
  | TaskEvent.timedOut :: _, _ => Except.error ()

/-- The tail of `RealSearchEngine.search` (`src/search/engine.py`,
lines 82-103): collect, sort descending by relevance, truncate to `limit`;
an uncaught `TimeoutError` propagates out of `search`. -/
def search_aggregate (events : List TaskEvent) (limit : Nat) :
    Except Unit (List SearchResult) :=
  match collect_results events [] with
  | Except.ok allResults => Except.ok ((pySortDesc allResults).take limit)
  | Except.error e => Except.error e

/-- The concatenation, in completion order, of the result lists of the
successfully completed tasks. -/
def okResults : List TaskEvent → List SearchResult
  | [] => []
  | TaskEvent.completed _ (Except.ok rs) :: evs => rs ++ okResults evs
  | TaskEvent.completed _ (Except.error _) :: evs => okResults evs
  | TaskEvent.timedOut :: evs => okResults evs

lemma pySortDesc_sorted (l : List SearchResult) : List.Sorted scoreGE (pySortDesc l) :=
  List.sorted_insertionSort scoreGE l

lemma pySortDesc_perm (l : List SearchResult) : List.Perm (pySortDesc l) l :=
  List.perm_insertionSort scoreGE l

/-- Stability: the sort keeps equal-score results in their insertion order. -/
lemma pySortDesc_stable (l : List SearchResult) (c : Rat) :
    (pySortDesc l).filter (fun x => x.relevance_score == c)
      = l.filter (fun x => x.relevance_score == c) := by
  have hpermf : List.Perm ((pySortDesc l).filter (fun x => x.relevance_score == c))
      (l.filter (fun x => x.relevance_score == c)) :=
    (pySortDesc_perm l).filter _
  have hpair : (l.filter (fun x => x.relevance_score == c)).Pairwise scoreGE := by
    apply List.pairwise_of_forall_mem_list
    intro a ha b hb
    have ha2 : a.relevance_score = c := beq_iff_eq.mp (List.mem_filter.mp ha).2
    have hb2 : b.relevance_score = c := beq_iff_eq.mp (List.mem_filter.mp hb).2
    show b.relevance_score ≤ a.relevance_score
    rw [ha2, hb2]
  have hsub : List.Sublist (l.filter (fun x => x.relevance_score == c)) (pySortDesc l) :=
    List.sublist_insertionSort hpair (List.filter_sublist l)
  have hself : (l.filter (fun x => x.relevance_score == c)).filter
      (fun x => x.relevance_score == c) = l.filter (fun x => x.relevance_score == c) := by
    apply List.filter_eq_self.mpr
    intro a ha
    exact (List.mem_filter.mp ha).2
  have hsub2 : List.Sublist (l.filter (fun x => x.relevance_score == c))
      ((pySortDesc l).filter (fun x => x.relevance_score == c)) := by
    have h2 := hsub.filter (fun x => x.relevance_score == c)
    rwa [hself] at h2
  exact (hsub2.eq_of_length hpermf.length_eq.symm).symm

lemma collect_no_timeout : ∀ (events : List TaskEvent), TaskEvent.timedOut ∉ events →
    ∀ acc, collect_results events acc = Except.ok (acc ++ okResults events)
  | [], _, acc => by simp [collect_results, okResults]
  | TaskEvent.completed mgr (Except.ok rs) :: evs, hnt, acc => by
    simp only [collect_results, okResults]
    rw [collect_no_timeout evs (fun h => hnt (List.mem_cons_of_mem _ h)) (acc ++ rs),
      List.append_assoc]
  | TaskEvent.completed mgr (Except.error e) :: evs, hnt, acc => by
    simp only [collect_results, okResults]
    exact collect_no_timeout evs (fun h => hnt (List.mem_cons_of_mem _ h)) acc
  | TaskEvent.timedOut :: evs, hnt, acc =>
    absurd (List.mem_cons_self _ _) hnt

/-- C7: a successful search aggregation returns the stable descending sort of
the collected results truncated to `limit`: length at most `limit`, scores
non-increasing, ties kept in insertion order. -/
theorem search_results_sorted_limited (events : List TaskEvent) (limit : Nat)
    (allR res : List SearchResult)
    (hall : collect_results events [] = Except.ok allR)
    (h : search_aggregate events limit = Except.ok res) :
    res = (pySortDesc allR).take limit
    ∧ res.length ≤ limit
    ∧ List.Sorted scoreGE res
    ∧ ∀ c : Rat, (pySortDesc allR).filter (fun x => x.relevance_score == c)
        = allR.filter (fun x => x.relevance_score == c) := by
  unfold search_aggregate at h
  rw [hall] at h
  have hres : res = (pySortDesc allR).take limit := by
    injection h with h2
    exact h2.symm
  refine ⟨hres, ?_, ?_, fun c => pySortDesc_stable allR c⟩
  · rw [hres]
    exact (pySortDesc allR).length_take_le limit
  · rw [hres]
    exact (pySortDesc_sorted allR).sublist (List.take_sublist limit (pySortDesc allR))

/-- A minimal concrete search result. -/
def sr (n : String) (s : Rat) : SearchResult := ⟨n, "", "1.0", "pip", none, s⟩

/-- Two completed tasks delivering three results. -/
def wEvents : List TaskEvent :=
  [TaskEvent.completed "pip" (Except.ok [sr "a" 50]),
   TaskEvent.completed "npm" (Except.ok [sr "b" 80, sr "c" 10])]

/-- C7 witness: three collected results, limit 2: the two highest scores in
descending order. -/
theorem search_results_sorted_limited_witness :
    collect_results wEvents [] = Except.ok [sr "a" 50, sr "b" 80, sr "c" 10]
    ∧ search_aggregate wEvents 2 = Except.ok [sr "b" 80, sr "a" 50]
    ∧ ([sr "b" 80, sr "a" 50] = (pySortDesc [sr "a" 50, sr "b" 80, sr "c" 10]).take 2
      ∧ ([sr "b" 80, sr "a" 50] : List SearchResult).length ≤ 2
      ∧ List.Sorted scoreGE [sr "b" 80, sr "a" 50]
      ∧ ∀ c : Rat, (pySortDesc [sr "a" 50, sr "b" 80, sr "c" 10]).filter
            (fun x => x.relevance_score == c)
          = ([sr "a" 50, sr "b" 80, sr "c" 10] : List SearchResult).filter
            (fun x => x.relevance_score == c)) :=
  ⟨rfl, rfl,
    search_results_sorted_limited wEvents 2 [sr "a" 50, sr "b" 80, sr "c" 10]
      [sr "b" 80, sr "a" 50] rfl rfl⟩

/-- A trace where pip completed with one result before the overall timeout. -/
def wEventsTimeout : List TaskEvent :=
  [TaskEvent.completed "pip" (Except.ok [sr "flask" 50]), TaskEvent.timedOut]

/-- C4 counterexample: with a completed pip task holding one result and a
sibling still outstanding when the 120-second overall timeout fires, the
aggregation aborts with the uncaught `TimeoutError` instead of returning the
already-collected sibling results. -/
theorem search_overall_timeout_counterexample :
    search_aggregate wEventsTimeout 20 = Except.error ()
    ∧ okResults wEventsTimeout = [sr "flask" 50] :=
  ⟨rfl, rfl⟩

/-- C4 amended: a task that raises is caught inside the loop and contributes
zero results while completed siblings are merged, sorted and truncated — but
only on traces without the overall-timeout event; when the 120-second
`as_completed` timeout fires, the `TimeoutError` escapes `search`. -/
theorem search_task_failure_isolated (events : List TaskEvent) (limit : Nat)
    (hnt : TaskEvent.timedOut ∉ events) :
    collect_results events [] = Except.ok (okResults events)
    ∧ search_aggregate events limit
        = Except.ok ((pySortDesc (okResults events)).take limit) := by
  have h1 := collect_no_timeout events hnt []
  rw [List.nil_append] at h1
  refine ⟨h1, ?_⟩
  unfold search_aggregate
  rw [h1]

/-- A trace where the npm task raised while pip completed. -/
def wEventsErr : List TaskEvent :=
  [TaskEvent.completed "pip" (Except.ok [sr "flask" 50]),
   TaskEvent.completed "npm" (Except.error "HTTPError")]

/-- C4 amended witness: the raising npm task contributes nothing and the pip
results are returned sorted. -/
theorem search_task_failure_isolated_witness :
    TaskEvent.timedOut ∉ wEventsErr
    ∧ (collect_results wEventsErr [] = Except.ok (okResults wEventsErr)
      ∧ search_aggregate wEventsErr 20
          = Except.ok ((pySortDesc (okResults wEventsErr)).take 20)) :=
  ⟨by decide, search_task_failure_isolated wEventsErr 20 (by decide)⟩

/-- The fields `_parse_pypi_info` reads from the PyPI JSON `info` object
(`src/search/engine.py`, lines 116-125). -/
structure PypiInfo where
  name : String
  summary : String
  version : String
  home_page : Option String
  project_url : Option String
deriving DecidableEq, Repr

/-- Python `a or b` over optional strings: `None` and `""` are falsy. -/
def orFalsy (a b : Option String) : Option String :=
  match a with
  | some s => if s = "" then b else some s
  | none => b

/-- Embeds `_parse_pypi_info` (`src/search/engine.py`, lines 116-125): an
exact-name result with constant relevance 50 and the summary truncated to
200 characters. -/
def _parse_pypi_info (info : PypiInfo) : SearchResult :=
  ⟨info.name, String.mk (info.summary.toList.take 200), info.version, "pip",
    orFalsy info.home_page info.project_url, 50⟩

/-- The observed outcome of `self.session.get` plus `r.json()` for the PyPI
lookup: `Except.error` for an exception raised in the try block, otherwise a
status code and the body-parse outcome. -/
structure PypiResponse where
  status_code : Int
  body : Except String PypiInfo
deriving DecidableEq, Repr

/-- Embeds `_search_pypi` (`src/search/engine.py`, lines 106-114): an
exact-name lookup against `pypi.org/pypi/QUERY/json` returning at most one
result; any exception or non-200 status yields `[]`. -/
def _search_pypi (resp : Except String PypiResponse) : List SearchResult :=
  match resp with
  | Except.error _ => []
  | Except.ok r =>
    if r.status_code = 200 then
      match r.body with
      | Except.ok info => [_parse_pypi_info info]
      | Except.error _ => []
    else []

/-- C10: `_search_pypi` returns at most one result: exactly one with constant
relevance 50 on HTTP 200 with a parsed body, and the empty list on a non-200
status or on any exception — never multiple fuzzy matches. -/
theorem pypi_exact_match_single (resp : Except String PypiResponse) :
    (_search_pypi resp).length ≤ 1
    ∧ (∀ r : PypiResponse, ∀ info : PypiInfo, resp = Except.ok r → r.status_code = 200 →
        r.body = Except.ok info →
        _search_pypi resp = [_parse_pypi_info info]
        ∧ (_parse_pypi_info info).relevance_score = 50)
    ∧ (∀ r : PypiResponse, resp = Except.ok r → ¬ r.status_code = 200 →
        _search_pypi resp = [])
    ∧ (∀ e : String, resp = Except.error e → _search_pypi resp = []) := by
  refine ⟨?_, ?_, ?_, ?_⟩
  · cases resp with
    | error e => simp [_search_pypi]
    | ok r =>
      by_cases hs : r.status_code = 200
      · cases hb : r.body with
        | ok info => simp [_search_pypi, hs, hb]
        | error e => simp [_search_pypi, hs, hb]
      · simp [_search_pypi, hs]
  · intro r info hr hs hb
    subst hr
    exact ⟨by simp [_search_pypi, hs, hb], rfl⟩
  · intro r hr hs
    subst hr
    simp [_search_pypi, hs]
  · intro e he
    subst he
    simp [_search_pypi]

/-- A concrete parsed PyPI info body. -/
def wInfo : PypiInfo := ⟨"flask", "A web framework", "3.0.1", some "", some "https://x"⟩

/-- C10 witness: a 200 response yields the single constant-score result, a
404 response and a raised exception yield none. -/
theorem pypi_exact_match_single_witness :
    _search_pypi (Except.ok ⟨200, Except.ok wInfo⟩) = [_parse_pypi_info wInfo]
    ∧ (_parse_pypi_info wInfo).relevance_score = 50
    ∧ _search_pypi (Except.ok ⟨404, Except.error "json"⟩) = []
    ∧ _search_pypi (Except.error "ConnectionError") = [] :=
  ⟨((pypi_exact_match_single (Except.ok ⟨200, Except.ok wInfo⟩)).2.1 ⟨200, Except.ok wInfo⟩
      wInfo rfl rfl rfl).1,
   ((pypi_exact_match_single (Except.ok ⟨200, Except.ok wInfo⟩)).2.1 ⟨200, Except.ok wInfo⟩
      wInfo rfl rfl rfl).2,
   (pypi_exact_match_single (Except.ok ⟨404, Except.error "json"⟩)).2.2.1
      ⟨404, Except.error "json"⟩ rfl (by decide),
   (pypi_exact_match_single (Except.error "ConnectionError")).2.2.2 "ConnectionError" rfl⟩

end CrossFire
